import Mathlib

/-!
Verification of the EPL data-pipeline's normalization and reconciliation engine
(`data-pipeline/` of QuantSports.ai): a shallow embedding of the pure logic of
`config.py`, `data_sources/football_data.py`, `data_sources/odds_api.py` and
`database.py`, followed by theorems about the embedded operations.

Conventions of the embedding:
* Python dicts carrying fixed field sets become structures; a field that may be
  absent or `None` is an `Option` (or the three-valued `PyField` type where the
  code distinguishes a missing key from a key bound to `None`).
* The wall-clock-dependent historical-window test of `get_odds_for_matches`
  (which compares each match date against `datetime.now()`) is passed in as a
  boolean predicate on the ISO date string.
* Upstream HTTP responses are passed in as a function from date string to the
  list of raw odds records the odds source returns for that date.
* Decimal odds prices are modelled as exact rationals; the pipeline only
  carries prices, it never computes with them.
-/

/-- Decimal price of a single 1X2 outcome quote (`outcome['price']`). -/
abbrev Price := Rat

/-- `TEAM_MAPPINGS` from `config.py`: the static alias table, in source order.
Python dict semantics for this literal (no duplicate keys) coincide with
first-match association-list lookup. -/
def TEAM_MAPPINGS : List (String × String) :=
  [("Man City", "Manchester City"),
   ("Man Utd", "Manchester United"),
   ("Spurs", "Tottenham"),
   ("Brighton", "Brighton & Hove Albion"),
   ("West Ham", "West Ham United"),
   ("Newcastle", "Newcastle United"),
   ("Wolves", "Wolverhampton Wanderers"),
   ("Leicester", "Leicester City"),
   ("Crystal Palace", "Crystal Palace"),
   ("Nottingham Forest", "Nottingham Forest"),
   ("Leeds", "Leeds United"),
   ("Everton", "Everton"),
   ("Brentford", "Brentford"),
   ("Fulham", "Fulham"),
   ("Bournemouth", "AFC Bournemouth"),
   ("Sheffield United", "Sheffield United"),
   ("Burnley", "Burnley"),
   ("Luton", "Luton Town")]

/-- `normalize_team_name` (defined identically in `FootballDataAPI` and
`OddsAPI`): `TEAM_MAPPINGS.get(team_name, team_name)`. -/
def normalize_team_name (team_name : String) : String :=
  match TEAM_MAPPINGS.lookup team_name with
  | some canonical => canonical
  | none => team_name

/-- A calendar date as held by Python's `datetime.date`.  The source obtains it
by parsing the upstream ISO timestamp; the embedding starts from the parsed
value. -/
structure PyDate where
  year : Nat
  month : Nat
  day : Nat
deriving DecidableEq, Repr

/-- Two-digit zero padding, as in `strftime` fields `%m` / `%d`. -/
def pad2 (n : Nat) : String :=
  if n < 10 then "0" ++ toString n else toString n

/-- Four-digit zero padding for the year.  All dates handled by the pipeline
have four-digit years, on which every platform's `%Y` agrees with this. -/
def pad4 (n : Nat) : String :=
  if n < 10 then "000" ++ toString n
  else if n < 100 then "00" ++ toString n
  else if n < 1000 then "0" ++ toString n
  else toString n

/-- `match_date.strftime('%Y_%m_%d')`. -/
def strftimeYmd (d : PyDate) : String :=
  pad4 d.year ++ "_" ++ pad2 d.month ++ "_" ++ pad2 d.day

/-- `match_date.isoformat()`. -/
def isoformat (d : PyDate) : String :=
  pad4 d.year ++ "-" ++ pad2 d.month ++ "-" ++ pad2 d.day

/-- Python's `str.replace(' ', '_')` on a team name: every space becomes an
underscore. -/
def replaceSpaces (s : String) : String :=
  String.mk (s.data.map (fun c => if c = ' ' then '_' else c))

/-- The head-to-head outcome-code-to-price dictionary built by
`extract_odds_data` (Python keys `'1'`, `'X'`, `'2'`); a `none` field is a key
the loop never wrote. -/
structure OddsDict where
  one : Option Price
  draw : Option Price
  two : Option Price
deriving DecidableEq, Repr

/-- Python truthiness of the odds dict: `not odds` iff no key was ever set. -/
def OddsDict.isEmptyDict (d : OddsDict) : Bool :=
  d.one.isNone && d.draw.isNone && d.two.isNone

/-- The dict holds all three outcome codes `'1'`, `'X'`, `'2'`. -/
def OddsDict.full (d : OddsDict) : Bool :=
  d.one.isSome && d.draw.isSome && d.two.isSome

/-- A normalized match record as produced by
`FootballDataAPI.normalize_match_data` and enriched by
`OddsAPI.enrich_matches_with_odds`. -/
structure MatchRec where
  match_id : String
  date : String
  home_team : String
  away_team : String
  result_home : Option Int
  result_away : Option Int
  league : String
  season : String
  market : String
  odds_opening : Option OddsDict
  odds_closing : Option OddsDict
  xg : Option Rat
deriving DecidableEq, Repr

/-- A raw match record from football-data.org, restricted to the fields
`normalize_match_data` reads.  `utcDate` is the already-parsed calendar date
(the source computes it via `datetime.fromisoformat(...).date()`);
`seasonStartYear` is the integer value of `match['season']['startDate'][:4]`;
`fullTimeHome`/`fullTimeAway` are `match['score']['fullTime'].get('home'/'away')`,
`none` when any level of the nested lookup is missing. -/
structure RawMatch where
  utcDate : PyDate
  homeTeamName : String
  awayTeamName : String
  seasonStartYear : Nat
  fullTimeHome : Option Int
  fullTimeAway : Option Int
deriving DecidableEq, Repr

/-- The season label `startDate[:4] + "/" + str(int(startDate[:4]) + 1)[2:]`
for a four-digit start year. -/
def seasonLabel (startYear : Nat) : String :=
  toString startYear ++ "/" ++ (toString (startYear + 1)).drop 2

/-- `FootballDataAPI.normalize_match_data`. -/
def normalize_match_data (m : RawMatch) : MatchRec :=
  let home_team := normalize_team_name m.homeTeamName
  let away_team := normalize_team_name m.awayTeamName
  { match_id := "EPL_" ++ strftimeYmd m.utcDate ++ "_" ++
      replaceSpaces home_team ++ "_" ++ replaceSpaces away_team,
    date := isoformat m.utcDate,
    home_team := home_team,
    away_team := away_team,
    result_home := m.fullTimeHome,
    result_away := m.fullTimeAway,
    league := "Premier League",
    season := seasonLabel m.seasonStartYear,
    market := "1X2",
    odds_opening := none,
    odds_closing := none,
    xg := none }

/-- One printed outcome of a bookmaker's head-to-head market. -/
structure Outcome where
  name : String
  price : Price
deriving DecidableEq, Repr

/-- One market of a bookmaker quote (`market['key']`, `market['outcomes']`);
an absent `outcomes` key is the empty list (both are falsy in the source's
`not h2h_market.get('outcomes')` test). -/
structure Market where
  key : String
  outcomes : List Outcome
deriving DecidableEq, Repr

/-- One bookmaker entry of a raw odds record. -/
structure Bookmaker where
  markets : List Market
deriving DecidableEq, Repr

/-- A raw odds record from the-odds-api.com, restricted to the fields the
source reads.  `home_team`/`away_team` model `odds_match.get('home_team')`:
`none` when the key is absent. -/
structure OddsMatch where
  home_team : Option String
  away_team : Option String
  bookmakers : List Bookmaker
deriving DecidableEq, Repr

/-- The `{'opening': ..., 'closing': ...}` pair returned by
`extract_odds_data`. -/
structure OddsRec where
  opening : Option OddsDict
  closing : Option OddsDict
deriving DecidableEq, Repr

/-- One iteration of the outcome-classification loop of `extract_odds_data`:
exact name match against the record's own home field sets `'1'`, else against
the away field sets `'2'`, anything else is treated as the draw `'X'`.
Comparing a string against an absent (`None`) team field is `False` in Python,
as in the `some o.name = hm` comparison here. -/
def oddsInsert (hm am : Option String) (d : OddsDict) (o : Outcome) : OddsDict :=
  if some o.name = hm then { d with one := some o.price }
  else if some o.name = am then { d with two := some o.price }
  else { d with draw := some o.price }

/-- The odds dict after the whole classification loop. -/
def buildOdds (hm am : Option String) (os : List Outcome) : OddsDict :=
  os.foldl (oddsInsert hm am) ⟨none, none, none⟩

/-- Bookmaker/market selection of `extract_odds_data`: take the first
bookmaker, find its first market keyed `'h2h'`, and fail (returning `none`,
the source's early `{'opening': None, 'closing': None}` returns) when there is
no bookmaker, no such market, or the market has no outcomes. -/
def selectH2h (om : OddsMatch) : Option (List Outcome) :=
  match om.bookmakers with
  | [] => none
  | bm :: _ =>
    match bm.markets.find? (fun mk => mk.key == "h2h") with
    | none => none
    | some mk => if mk.outcomes.isEmpty then none else some mk.outcomes

/-- `OddsAPI.extract_odds_data`. -/
def extract_odds_data (om : OddsMatch) : OddsRec :=
  match selectH2h om with
  | none => ⟨none, none⟩
  | some os =>
    let odds := buildOdds om.home_team om.away_team os
    if odds.isEmptyDict then ⟨none, none⟩ else ⟨some odds, some odds⟩

/-- The join predicate of `get_odds_for_matches`: a skeleton matches an odds
record iff its canonical home/away names equal the record's normalized names
and its date equals the response date being processed. -/
def joinPred (dstr : String) (om : OddsMatch) (m : MatchRec) : Bool :=
  m.home_team == normalize_team_name (om.home_team.getD "") &&
  m.away_team == normalize_team_name (om.away_team.getD "") &&
  m.date == dstr

/-- The `for match in matches: ... break` search of `get_odds_for_matches`:
the first skeleton the odds record joins to, if any. -/
def fragmentTarget (ms : List MatchRec) (dstr : String) (om : OddsMatch) :
    Option MatchRec :=
  ms.find? (joinPred dstr om)

/-- The odds lookup table built by `get_odds_for_matches`, as an association
list.  A Python dict assignment `odds_data[k] = v` is modelled by prepending,
so that `List.lookup` (first hit) sees the most recent write, exactly as dict
lookup does. -/
abbrev OddsTable := List (String × OddsRec)

/-- Processing of one odds record of one date's response: if it joins to a
skeleton, write that skeleton's `match_id` into the table. -/
def fragStep (ms : List MatchRec) (dstr : String) (od : OddsTable)
    (om : OddsMatch) : OddsTable :=
  match fragmentTarget ms dstr om with
  | some m => (m.match_id, extract_odds_data om) :: od
  | none => od

/-- Processing of one date of `get_odds_for_matches`: fold the date's whole
response into the table. -/
def dateStep (ms : List MatchRec) (responses : String → List OddsMatch)
    (od : OddsTable) (dstr : String) : OddsTable :=
  (responses dstr).foldl (fragStep ms dstr) od

/-- The `dates_to_process` computation of `get_odds_for_matches`: the distinct
match dates that pass the historical-window test, in ascending order
(Python builds a set and iterates it with `sorted`).  `withinLimit` stands for
the wall-clock test `(now - match_date).days <= ODDS_API_HISTORICAL_LIMIT_DAYS`. -/
def datesToProcess (withinLimit : String → Bool) (ms : List MatchRec) :
    List String :=
  List.insertionSort (fun a b => a ≤ b)
    (((ms.map (fun m => m.date)).filter withinLimit).dedup)

/-- `OddsAPI.get_odds_for_matches`, with the wall-clock window test and the
per-date upstream responses passed in. -/
def get_odds_for_matches (withinLimit : String → Bool)
    (responses : String → List OddsMatch) (ms : List MatchRec) :
    OddsTable :=
  (datesToProcess withinLimit ms).foldl (dateStep ms responses) []

/-- The body of the enrichment loop of `enrich_matches_with_odds`: copy the
skeleton, and overwrite its odds fields when the table has an entry for its
`match_id`. -/
def enrichOne (od : OddsTable) (m : MatchRec) : MatchRec :=
  match od.lookup m.match_id with
  | some o => { m with odds_opening := o.opening, odds_closing := o.closing }
  | none => m

/-- `OddsAPI.enrich_matches_with_odds`. -/
def enrich_matches_with_odds (withinLimit : String → Bool)
    (responses : String → List OddsMatch) (ms : List MatchRec) :
    List MatchRec :=
  ms.map (enrichOne (get_odds_for_matches withinLimit responses ms))

/-- The writes a date's response contributes to the odds table, in processing
order. -/
def dateWrites (ms : List MatchRec) (dstr : String)
    (frags : List OddsMatch) : OddsTable :=
  frags.filterMap
    (fun om => (fragmentTarget ms dstr om).map
      (fun m => (m.match_id, extract_odds_data om)))

/-- All writes of a run of `get_odds_for_matches`, in processing order. -/
def allWrites (ms : List MatchRec) (responses : String → List OddsMatch)
    (dates : List String) : OddsTable :=
  (dates.map (fun d => dateWrites ms d (responses d))).flatten

/-- A Python dict entry that may be missing, bound to `None`, or bound to a
value — `validate_match_data` distinguishes all three (`field not in match`,
`match[field] is None`, and the value case). -/
inductive PyField (A : Type) where
  | absent : PyField A
  | null : PyField A
  | val : A → PyField A
deriving DecidableEq, Repr

/-- The required-field test of the validator: `field not in match or
match[field] is None`. -/
def PyField.isMissing {A : Type} : PyField A → Bool
  | .val _ => false
  | _ => true

/-- A record as seen by `MatchDatabase.validate_match_data`, restricted to the
fields it reads.  Result values are typed integers: the pipeline only ever
stores integers or `None` there, so the source's `isinstance(..., int)` guard
is always satisfied when a value is present. -/
structure VRecord where
  match_id : PyField String
  date : PyField String
  home_team : PyField String
  away_team : PyField String
  season : PyField String
  result_home : PyField Int
  result_away : PyField Int
deriving DecidableEq, Repr

/-- Leap-year rule of the proleptic Gregorian calendar used by
`datetime.date`. -/
def isLeapYear (y : Nat) : Bool :=
  (y % 4 == 0 && y % 100 != 0) || y % 400 == 0

/-- Days in a month of `datetime.date`. -/
def daysInMonth (y m : Nat) : Nat :=
  if m == 2 then (if isLeapYear y then 29 else 28)
  else if m == 4 || m == 6 || m == 9 || m == 11 then 30
  else 31

/-- Numeric value of a decimal digit character. -/
def digitVal (c : Char) : Nat := c.toNat - 48

/-- Success of `datetime.fromisoformat` on a string argument, for the
`YYYY-MM-DD` form this pipeline produces (the source library also accepts
forms with a time part, which never reach the validator). -/
def isoOkDate (s : String) : Bool :=
  match s.data with
  | [y1, y2, y3, y4, s1, m1, m2, s2, d1, d2] =>
    y1.isDigit && y2.isDigit && y3.isDigit && y4.isDigit &&
    s1 == '-' && s2 == '-' &&
    m1.isDigit && m2.isDigit && d1.isDigit && d2.isDigit &&
    (let y := digitVal y1 * 1000 + digitVal y2 * 100 + digitVal y3 * 10 + digitVal y4
     let mo := digitVal m1 * 10 + digitVal m2
     let da := digitVal d1 * 10 + digitVal d2
     1 ≤ y && 1 ≤ mo && mo ≤ 12 && 1 ≤ da && da ≤ daysInMonth y mo)
  | _ => false

/-- The Python exception the embedded validator can let escape. -/
inductive PyError where
  | typeError : PyError
deriving DecidableEq, Repr

/-- The required-field pass of `validate_match_data`, in source order. -/
def requiredFieldErrors (r : VRecord) : List String :=
  (if r.match_id.isMissing then ["Missing required field: match_id"] else []) ++
  (if r.date.isMissing then ["Missing required field: date"] else []) ++
  (if r.home_team.isMissing then ["Missing required field: home_team"] else []) ++
  (if r.away_team.isMissing then ["Missing required field: away_team"] else []) ++
  (if r.season.isMissing then ["Missing required field: season"] else [])

/-- `MatchDatabase.validate_match_data`.  The date check runs
`datetime.fromisoformat(match["date"])` inside `except (ValueError, KeyError)`:
an absent key raises `KeyError` (caught, recorded as a format violation), a
malformed string raises `ValueError` (likewise caught), but a `None` value
raises `TypeError`, which the handler does not catch and which therefore
escapes the function; this is modelled by the `Except.error` result. -/
def validate_match_data (r : VRecord) : Except PyError (List String) :=
  let errors := requiredFieldErrors r
  match r.date with
  | .null => .error .typeError
  | .absent => .ok (resultErrors r (errors ++ ["Invalid date format"]))
  | .val s =>
    .ok (resultErrors r
      (if isoOkDate s then errors else errors ++ ["Invalid date format"]))
where
  /-- The score-sanity pass: a present negative value is a violation (a present
  value is always an `int` here, see `VRecord`). -/
  resultErrors (r : VRecord) (errors : List String) : List String :=
    let errors :=
      match r.result_home with
      | .val v => if v < 0 then errors ++ ["Invalid home result"] else errors
      | _ => errors
    match r.result_away with
    | .val v => if v < 0 then errors ++ ["Invalid away result"] else errors
    | _ => errors

/-- Outcome of the store round-trips `insert_matches` performs for one record:
the existence check can fail, or report an existing row whose update succeeds
or fails, or report a new row whose insert succeeds or fails. -/
inductive StoreStep where
  | selectErr : StoreStep
  | updateOk : StoreStep
  | updateErr : StoreStep
  | insertOk : StoreStep
  | insertErr : StoreStep
deriving DecidableEq, Repr

/-- The aggregate counts returned by `insert_matches`. -/
structure InsertCounts where
  inserted : Nat
  updated : Nat
  errors : Nat
deriving DecidableEq, Repr

instance : Add InsertCounts where
  add a b := ⟨a.inserted + b.inserted, a.updated + b.updated, a.errors + b.errors⟩

/-- One iteration of the `insert_matches` loop: a successful update increments
`updated`, a successful insert increments `inserted`, and any raised store
exception is caught, increments `errors`, and lets the loop continue. -/
def insertStep (store : MatchRec → StoreStep) (c : InsertCounts) (m : MatchRec) :
    InsertCounts :=
  match store m with
  | .updateOk => { c with updated := c.updated + 1 }
  | .insertOk => { c with inserted := c.inserted + 1 }
  | _ => { c with errors := c.errors + 1 }

/-- `MatchDatabase.insert_matches`, with the per-record store behaviour passed
in.  The source's early return on an empty batch yields the same zero counts
as the fold. -/
def insert_matches (store : MatchRec → StoreStep) (ms : List MatchRec) :
    InsertCounts :=
  if ms.isEmpty then ⟨0, 0, 0⟩ else ms.foldl (insertStep store) ⟨0, 0, 0⟩

/-- The join key relation of the spec's merge engine, on the odds-record side:
the record's normalized team names equal the skeleton's canonical names (the
date part of the triple is handled by which response list the record sits in). -/
def tripleMatches (om : OddsMatch) (m : MatchRec) : Prop :=
  normalize_team_name (om.home_team.getD "") = m.home_team ∧
  normalize_team_name (om.away_team.getD "") = m.away_team

instance (om : OddsMatch) (m : MatchRec) : Decidable (tripleMatches om m) := by
  unfold tripleMatches; infer_instance

/-- A window test under which every date is current (used by the concrete
scenarios below). -/
def alwaysWithin : String → Bool := fun _ => true

/-- A match skeleton with the given identity fields and no results or odds. -/
def skel (id date home away : String) : MatchRec :=
  ⟨id, date, home, away, none, none, "Premier League", "2023/24", "1X2",
    none, none, none⟩

/-- A raw odds record carrying a single h2h outcome (the home side only). -/
def cexPartialFrag : OddsMatch :=
  ⟨some "H", some "B", [⟨[⟨"h2h", [⟨"H", 2⟩]⟩]⟩]⟩

/-- A raw odds record carrying all three h2h outcomes. -/
def witFullFrag : OddsMatch :=
  ⟨some "Man City", some "Spurs",
    [⟨[⟨"h2h", [⟨"Man City", 2⟩, ⟨"Draw", 3⟩, ⟨"Spurs", 4⟩]⟩]⟩]⟩

/-- The outcome list of `witFullFrag`. -/
def witFullOutcomes : List Outcome :=
  [⟨"Man City", 2⟩, ⟨"Draw", 3⟩, ⟨"Spurs", 4⟩]

/-- A raw results record whose `fullTime` mapping has a home entry but no away
entry. -/
def cexRawPartial : RawMatch :=
  ⟨⟨2024, 1, 1⟩, "Arsenal", "Chelsea", 2023, some 2, none⟩

/-- A raw results record of a pending match (no full-time score at all). -/
def witRawPending : RawMatch :=
  ⟨⟨2024, 1, 2⟩, "Arsenal", "Chelsea", 2023, none, none⟩

/-- Two raw records of the same fixture seen by two extraction passes: same
date and teams, the first pass before the final score existed. -/
def witRawPass1 : RawMatch :=
  ⟨⟨2024, 5, 19⟩, "Man City", "West Ham", 2023, none, none⟩

/-- Second extraction pass of the `witRawPass1` fixture, now with the score. -/
def witRawPass2 : RawMatch :=
  ⟨⟨2024, 5, 19⟩, "Man City", "West Ham", 2023, some 3, some 1⟩

/-- Skeleton for the null-odds merge scenario. -/
def cexSkel4 : MatchRec := skel "EPL_2024_01_01_H_A" "2024-01-01" "H" "A"

/-- An odds record joining `cexSkel4` but carrying no bookmakers at all. -/
def cexFrag4 : OddsMatch := ⟨some "H", some "A", []⟩

/-- Responses for the null-odds merge scenario. -/
def cexResp4 : String → List OddsMatch :=
  fun d => if d = "2024-01-01" then [cexFrag4] else []

/-- Skeleton for the unique-fragment merge scenario. -/
def witSkel4 : MatchRec := skel "EPL_2024_02_02_H_A" "2024-02-02" "H" "A"

/-- The unique odds record joining `witSkel4`, with a full h2h market. -/
def witFrag4 : OddsMatch :=
  ⟨some "H", some "A", [⟨[⟨"h2h", [⟨"H", 2⟩, ⟨"Draw", 3⟩, ⟨"A", 4⟩]⟩]⟩]⟩

/-- Responses for the unique-fragment merge scenario. -/
def witResp4 : String → List OddsMatch :=
  fun d => if d = "2024-02-02" then [witFrag4] else []

/-- Skeleton for the duplicate-fragment merge scenario. -/
def cexSkel5 : MatchRec := skel "EPL_2024_04_04_H_A" "2024-04-04" "H" "A"

/-- First of two odds records joining `cexSkel5`. -/
def cexFragA5 : OddsMatch :=
  ⟨some "H", some "A", [⟨[⟨"h2h", [⟨"H", 2⟩, ⟨"Draw", 3⟩, ⟨"A", 4⟩]⟩]⟩]⟩

/-- Second of two odds records joining `cexSkel5`, with different prices. -/
def cexFragB5 : OddsMatch :=
  ⟨some "H", some "A", [⟨[⟨"h2h", [⟨"H", 5⟩, ⟨"Draw", 6⟩, ⟨"A", 7⟩]⟩]⟩]⟩

/-- Responses for the duplicate-fragment merge scenario: both records on the
skeleton's date, in this order. -/
def cexResp5 : String → List OddsMatch :=
  fun d => if d = "2024-04-04" then [cexFragA5, cexFragB5] else []

/-- Skeleton for the no-matching-fragment merge scenario. -/
def witSkel6 : MatchRec := skel "EPL_2024_03_03_H_A" "2024-03-03" "H" "A"

/-- An odds record on `witSkel6`'s date naming two other teams. -/
def witFrag6 : OddsMatch := ⟨some "X", some "Y", []⟩

/-- Responses for the no-matching-fragment merge scenario. -/
def witResp6 : String → List OddsMatch :=
  fun d => if d = "2024-03-03" then [witFrag6] else []

/-- A batch record whose store round-trip will fail. -/
def witRecB : MatchRec := skel "B" "2024-01-01" "H" "A"

/-- A store behaviour that rejects `witRecB`'s insert and accepts everything
else. -/
def witStore : MatchRec → StoreStep :=
  fun m => if m.match_id = "B" then .insertErr else .insertOk

/-- A record with two required fields missing: `date` is present but `None`,
`season` likewise. -/
def cexValRecTwoMissing : VRecord :=
  ⟨.val "EPL_2024_01_01_A_B", .null, .val "A", .val "B", .null, .absent, .absent⟩

/-- A record that is complete except that `date` is present but `None`. -/
def cexValRecNullDate : VRecord :=
  ⟨.val "EPL_2024_01_01_A_B", .null, .val "A", .val "B", .val "2023/24",
    .absent, .absent⟩

theorem lookup_mem_assoc {B : Type} :
    ∀ (l : List (String × B)) (x : String) (v : B),
      l.lookup x = some v → (x, v) ∈ l := by
  intro l
  induction l with
  | nil => intro x v h; simp [List.lookup] at h
  | cons p t ih =>
    intro x v h
    obtain ⟨k, b⟩ := p
    rw [List.lookup_cons] at h
    cases hxk : x == k with
    | true =>
      rw [hxk] at h
      simp only [Option.some.injEq] at h
      have hx : x = k := beq_iff_eq.mp hxk
      subst hx; subst h
      exact List.mem_cons_self _ _
    | false =>
      rw [hxk] at h
      exact List.mem_cons_of_mem _ (ih x v h)

theorem lookup_none_of_no_key {B : Type} (k : String) :
    ∀ l : List (String × B), (∀ w ∈ l, w.1 ≠ k) → l.lookup k = none := by
  intro l
  induction l with
  | nil => intro _; rfl
  | cons p t ih =>
    intro h
    obtain ⟨a, b⟩ := p
    have ha : a ≠ k := h (a, b) (List.mem_cons_self _ _)
    rw [List.lookup_cons]
    have hne : (k == a) = false := by
      simpa using fun he => ha he.symm
    rw [hne]
    exact ih fun w hw => h w (List.mem_cons_of_mem _ hw)

theorem lookup_unique_val {B : Type} (k : String) (v : B) :
    ∀ l : List (String × B), (∀ w ∈ l, w.1 = k → w.2 = v) →
      l.lookup k = none ∨ l.lookup k = some v := by
  intro l
  induction l with
  | nil => intro _; exact Or.inl rfl
  | cons p t ih =>
    intro h
    obtain ⟨a, b⟩ := p
    rw [List.lookup_cons]
    by_cases hk : (k == a) = true
    · rw [hk]
      have hbv : b = v := h (a, b) (List.mem_cons_self _ _) (beq_iff_eq.mp hk).symm
      exact Or.inr (congrArg some hbv)
    · simp only [Bool.not_eq_true] at hk
      rw [hk]
      exact ih fun w hw => h w (List.mem_cons_of_mem _ hw)

theorem lookup_append_cases {B : Type} (k : String) :
    ∀ l1 l2 : List (String × B),
      (l1 ++ l2).lookup k =
        match l1.lookup k with
        | some v => some v
        | none => l2.lookup k := by
  intro l1 l2
  induction l1 with
  | nil => rfl
  | cons p t ih =>
    obtain ⟨a, b⟩ := p
    rw [List.cons_append, List.lookup_cons, List.lookup_cons]
    by_cases hk : (k == a) = true
    · rw [hk]
    · simp only [Bool.not_eq_true] at hk
      rw [hk, ih]

theorem lookup_sandwich {B : Type} (k : String) (v : B)
    (wsA wsB : List (String × B))
    (h : ∀ w ∈ wsB, w.1 = k → w.2 = v) :
    ((wsA ++ (k, v) :: wsB).reverse).lookup k = some v := by
  rw [List.reverse_append, List.reverse_cons, List.append_assoc]
  rw [lookup_append_cases]
  have h2 : ∀ w ∈ wsB.reverse, w.1 = k → w.2 = v :=
    fun w hw => h w (List.mem_reverse.mp hw)
  have hkk : (k == k) = true := beq_self_eq_true k
  rcases lookup_unique_val k v wsB.reverse h2 with hn | hs
  · rw [hn]
    rw [List.cons_append, List.lookup_cons, hkk]
  · rw [hs]

/-- Every pair of the alias table maps a canonical value that the normalizer
leaves fixed. -/
theorem team_mappings_values_fixed :
    ∀ p ∈ TEAM_MAPPINGS, normalize_team_name p.2 = p.2 := by decide

/-- C10: team-name normalization is idempotent: `normalize(normalize(x)) ==
normalize(x)` for every string `x`, where `normalize` looks `x` up in the
static alias table and returns `x` unchanged when absent. -/
theorem normalize_team_name_idempotent (x : String) :
    normalize_team_name (normalize_team_name x) = normalize_team_name x := by
  cases h : TEAM_MAPPINGS.lookup x with
  | none =>
    have hx : normalize_team_name x = x := by
      unfold normalize_team_name; rw [h]
    rw [hx]
    exact hx
  | some v =>
    have hx : normalize_team_name x = v := by
      unfold normalize_team_name; rw [h]
    rw [hx]
    exact team_mappings_values_fixed (x, v) (lookup_mem_assoc _ _ _ h)

/-- C2 (amended): the extractor's `result_home`/`result_away` each mirror the
corresponding raw `fullTime` entry independently; in particular a raw record
with no full-time score at all yields both fields null. -/
theorem normalize_results_mirror_raw :
    (∀ r : RawMatch,
      (normalize_match_data r).result_home = r.fullTimeHome ∧
      (normalize_match_data r).result_away = r.fullTimeAway) ∧
    (∀ r : RawMatch, r.fullTimeHome = none → r.fullTimeAway = none →
      (normalize_match_data r).result_home = none ∧
      (normalize_match_data r).result_away = none) := by
  refine ⟨fun r => ⟨rfl, rfl⟩, fun r h1 h2 => ⟨?_, ?_⟩⟩
  · show r.fullTimeHome = none; exact h1
  · show r.fullTimeAway = none; exact h2

/-- C2 counterexample: a raw record whose `fullTime` mapping carries only the
home entry is normalized to `result_home` present and `result_away` null —
one without the other. -/
theorem normalize_results_partial_cex :
    (normalize_match_data cexRawPartial).result_home = some 2 ∧
    (normalize_match_data cexRawPartial).result_away = none := by
  exact ⟨rfl, rfl⟩

/-- C2 witness: the amended theorem applied to the concrete pending raw
record. -/
theorem normalize_results_mirror_raw_witness :
    witRawPending.fullTimeHome = none ∧ witRawPending.fullTimeAway = none ∧
    ((normalize_match_data witRawPending).result_home = none ∧
      (normalize_match_data witRawPending).result_away = none) :=
  ⟨rfl, rfl, normalize_results_mirror_raw.2 witRawPending rfl rfl⟩

/-- C3: `match_id` is the string `"EPL_" + YYYY_MM_DD + "_" + home-with-
underscores + "_" + away-with-underscores` over the normalized names, and is
a deterministic pure function of the `(date, normalized home, normalized
away)` triple: two extractions agreeing on the triple yield an identical id. -/
theorem match_id_formula_deterministic :
    (∀ r : RawMatch, (normalize_match_data r).match_id =
      "EPL_" ++ strftimeYmd r.utcDate ++ "_" ++
        replaceSpaces (normalize_team_name r.homeTeamName) ++ "_" ++
        replaceSpaces (normalize_team_name r.awayTeamName)) ∧
    (∀ r1 r2 : RawMatch, r1.utcDate = r2.utcDate →
      normalize_team_name r1.homeTeamName = normalize_team_name r2.homeTeamName →
      normalize_team_name r1.awayTeamName = normalize_team_name r2.awayTeamName →
      (normalize_match_data r1).match_id = (normalize_match_data r2).match_id) := by
  constructor
  · intro r; rfl
  · intro r1 r2 hd hh ha
    show "EPL_" ++ strftimeYmd r1.utcDate ++ "_" ++
        replaceSpaces (normalize_team_name r1.homeTeamName) ++ "_" ++
        replaceSpaces (normalize_team_name r1.awayTeamName) =
      "EPL_" ++ strftimeYmd r2.utcDate ++ "_" ++
        replaceSpaces (normalize_team_name r2.homeTeamName) ++ "_" ++
        replaceSpaces (normalize_team_name r2.awayTeamName)
    rw [hd, hh, ha]

/-- C3 witness: two extraction passes of the same real fixture (one before the
final score existed) produce the same id, namely the spec's concrete scenario
id. -/
theorem match_id_formula_deterministic_witness :
    witRawPass1.utcDate = witRawPass2.utcDate ∧
    normalize_team_name witRawPass1.homeTeamName =
      normalize_team_name witRawPass2.homeTeamName ∧
    normalize_team_name witRawPass1.awayTeamName =
      normalize_team_name witRawPass2.awayTeamName ∧
    (normalize_match_data witRawPass1).match_id =
      (normalize_match_data witRawPass2).match_id ∧
    (normalize_match_data witRawPass2).match_id =
      "EPL_2024_05_19_Manchester_City_West_Ham_United" :=
  ⟨rfl, rfl, rfl,
    match_id_formula_deterministic.2 witRawPass1 witRawPass2 rfl rfl rfl,
    by decide⟩

/-- C7: evaluation at the failing input.  A record missing two required fields
(`date` and `season` both present-but-`None`) makes `validate_match_data`
raise an uncaught `TypeError` out of `datetime.fromisoformat(None)` instead of
returning its two accumulated violations. -/
theorem validate_two_missing_raises :
    (requiredFieldErrors cexValRecTwoMissing).length = 2 ∧
    validate_match_data cexValRecTwoMissing = .error .typeError := by
  exact ⟨rfl, rfl⟩

/-- C8: evaluation at the failing input.  On a record whose `date` field is
present but `None`, `validate_match_data` raises an uncaught `TypeError`
(`datetime.fromisoformat(None)` raises `TypeError`, and the handler catches
only `ValueError` and `KeyError`), so the validator is not total. -/
theorem validate_null_date_raises :
    validate_match_data cexValRecNullDate = .error .typeError := by
  exact rfl

/-- Supporting fact: whenever validation does complete, the returned list
extends the required-field violations, so two missing required fields give at
least two reasons — the accumulation logic itself is sound and only the
uncaught `TypeError` of the date check breaks totality. -/
theorem validate_ok_accumulates (r : VRecord) (es : List String)
    (h : validate_match_data r = .ok es) :
    (requiredFieldErrors r).length ≤ es.length := by
  have key : ∀ e0, (validate_match_data.resultErrors r e0).length ≥ e0.length := by
    intro e0
    unfold validate_match_data.resultErrors
    cases r.result_home with
    | val v =>
      cases r.result_away with
      | val w =>
        by_cases h1 : v < 0 <;> by_cases h2 : w < 0 <;>
          simp [h1, h2, List.length_append]
      | absent => by_cases h1 : v < 0 <;> simp [h1, List.length_append]
      | null => by_cases h1 : v < 0 <;> simp [h1, List.length_append]
    | absent =>
      cases r.result_away with
      | val w => by_cases h2 : w < 0 <;> simp [h2, List.length_append]
      | absent => simp
      | null => simp
    | null =>
      cases r.result_away with
      | val w => by_cases h2 : w < 0 <;> simp [h2, List.length_append]
      | absent => simp
      | null => simp
  unfold validate_match_data at h
  cases hd : r.date with
  | null => rw [hd] at h; exact absurd h (by simp)
  | absent =>
    rw [hd] at h
    have := key (requiredFieldErrors r ++ ["Invalid date format"])
    simp only [Except.ok.injEq] at h
    rw [← h]
    calc (requiredFieldErrors r).length
        ≤ (requiredFieldErrors r ++ ["Invalid date format"]).length := by
          simp [List.length_append]
      _ ≤ _ := this
  | val s =>
    rw [hd] at h
    simp only [Except.ok.injEq] at h
    by_cases hok : isoOkDate s = true
    · rw [hok] at h
      simp only [if_true] at h
      rw [← h]
      exact key (requiredFieldErrors r)
    · simp only [Bool.not_eq_true] at hok
      rw [hok] at h
      simp only [Bool.false_eq_true, if_false] at h
      rw [← h]
      calc (requiredFieldErrors r).length
          ≤ (requiredFieldErrors r ++ ["Invalid date format"]).length := by
            simp [List.length_append]
        _ ≤ _ := key _

theorem insertCounts_add_mk (a b c d e f : Nat) :
    (⟨a, b, c⟩ + ⟨d, e, f⟩ : InsertCounts) = ⟨a + d, b + e, c + f⟩ := rfl

theorem insertCounts_add_assoc (x y z : InsertCounts) :
    x + y + z = x + (y + z) := by
  obtain ⟨a, b, c⟩ := x; obtain ⟨d, e, f⟩ := y; obtain ⟨g, h, i⟩ := z
  simp [insertCounts_add_mk, Nat.add_assoc]

theorem insertCounts_zero_add (x : InsertCounts) : (⟨0, 0, 0⟩ : InsertCounts) + x = x := by
  obtain ⟨a, b, c⟩ := x
  simp [insertCounts_add_mk]

theorem insert_matches_eq_foldl (store : MatchRec → StoreStep)
    (ms : List MatchRec) :
    insert_matches store ms = ms.foldl (insertStep store) ⟨0, 0, 0⟩ := by
  cases ms with
  | nil => rfl
  | cons m t => rfl

theorem insertStep_shift (store : MatchRec → StoreStep) (c : InsertCounts)
    (m : MatchRec) : insertStep store c m = c + insertStep store ⟨0, 0, 0⟩ m := by
  obtain ⟨a, b, e⟩ := c
  cases h : store m <;> simp [insertStep, h, insertCounts_add_mk]

theorem foldl_insertStep_shift (store : MatchRec → StoreStep) :
    ∀ (ms : List MatchRec) (c : InsertCounts),
      ms.foldl (insertStep store) c = c + ms.foldl (insertStep store) ⟨0, 0, 0⟩ := by
  intro ms
  induction ms with
  | nil => intro c; obtain ⟨a, b, e⟩ := c; simp [insertCounts_add_mk]
  | cons m t ih =>
    intro c
    rw [List.foldl_cons, List.foldl_cons, ih (insertStep store c m),
      ih (insertStep store ⟨0, 0, 0⟩ m), insertStep_shift store c m,
      insertCounts_add_assoc]

theorem foldl_insertStep_length (store : MatchRec → StoreStep) :
    ∀ (ms : List MatchRec) (c : InsertCounts),
      (ms.foldl (insertStep store) c).inserted +
        (ms.foldl (insertStep store) c).updated +
        (ms.foldl (insertStep store) c).errors =
      c.inserted + c.updated + c.errors + ms.length := by
  intro ms
  induction ms with
  | nil => intro c; simp
  | cons m t ih =>
    intro c
    rw [List.foldl_cons, ih (insertStep store c m), List.length_cons]
    cases h : store m <;> simp [insertStep, h] <;> omega

/-- C9: `insert_matches` is a total fold over the batch returning aggregate
counts: the counts always sum to the batch length, the counts over a split
batch are the componentwise sums of the parts (so a failure in one part never
aborts the rest), and a single record whose store round-trip fails contributes
exactly one error. -/
theorem insert_matches_counts_total (store : MatchRec → StoreStep) :
    (∀ ms : List MatchRec,
      (insert_matches store ms).inserted + (insert_matches store ms).updated +
        (insert_matches store ms).errors = ms.length) ∧
    (∀ l1 l2 : List MatchRec,
      insert_matches store (l1 ++ l2) =
        insert_matches store l1 + insert_matches store l2) ∧
    (∀ m : MatchRec,
      (store m = .selectErr ∨ store m = .updateErr ∨ store m = .insertErr) →
      insert_matches store [m] = ⟨0, 0, 1⟩) := by
  refine ⟨fun ms => ?_, fun l1 l2 => ?_, fun m h => ?_⟩
  · rw [insert_matches_eq_foldl]
    have := foldl_insertStep_length store ms ⟨0, 0, 0⟩
    simpa using this
  · rw [insert_matches_eq_foldl, insert_matches_eq_foldl,
      insert_matches_eq_foldl, List.foldl_append,
      foldl_insertStep_shift store l2 (List.foldl (insertStep store) ⟨0, 0, 0⟩ l1)]
  · rcases h with h | h | h <;>
      simp [insert_matches, insertStep, h]

/-- C9 witness: a three-record batch whose middle record's insert is rejected
by the store yields one error, processes the remaining record, and the counts
sum to the batch length. -/
theorem insert_matches_counts_total_witness :
    witStore witRecB = .insertErr ∧
    insert_matches witStore [witRecB] = ⟨0, 0, 1⟩ ∧
    (insert_matches witStore
        [skel "A" "2024-01-01" "H" "A", witRecB, skel "C" "2024-01-01" "H" "A"]).inserted +
      (insert_matches witStore
        [skel "A" "2024-01-01" "H" "A", witRecB, skel "C" "2024-01-01" "H" "A"]).updated +
      (insert_matches witStore
        [skel "A" "2024-01-01" "H" "A", witRecB, skel "C" "2024-01-01" "H" "A"]).errors = 3 :=
  ⟨by decide,
    (insert_matches_counts_total witStore).2.2 witRecB (Or.inr (Or.inr (by decide))),
    (insert_matches_counts_total witStore).1
      [skel "A" "2024-01-01" "H" "A", witRecB, skel "C" "2024-01-01" "H" "A"]⟩

theorem oddsInsert_not_empty (hm am : Option String) (d : OddsDict)
    (o : Outcome) : (oddsInsert hm am d o).isEmptyDict = false := by
  unfold oddsInsert
  by_cases h1 : some o.name = hm
  · rw [if_pos h1]; simp [OddsDict.isEmptyDict]
  · rw [if_neg h1]
    by_cases h2 : some o.name = am
    · rw [if_pos h2]; simp [OddsDict.isEmptyDict]
    · rw [if_neg h2]; simp [OddsDict.isEmptyDict]

theorem buildOdds_ne_empty (hm am : Option String) :
    ∀ (os : List Outcome) (d : OddsDict), os ≠ [] →
      ((os.foldl (oddsInsert hm am) d).isEmptyDict) = false := by
  intro os
  induction os with
  | nil => intro d h; exact absurd rfl h
  | cons o t ih =>
    intro d _
    rw [List.foldl_cons]
    cases t with
    | nil => exact oddsInsert_not_empty hm am d o
    | cons o2 t2 => exact ih _ (by simp)

theorem selectH2h_outcomes_ne_nil (om : OddsMatch) (os : List Outcome)
    (h : selectH2h om = some os) : os ≠ [] := by
  unfold selectH2h at h
  cases hb : om.bookmakers with
  | nil => rw [hb] at h; simp at h
  | cons bm t =>
    rw [hb] at h
    simp only [] at h
    cases hf : bm.markets.find? (fun mk => mk.key == "h2h") with
    | none => rw [hf] at h; simp at h
    | some mk =>
      rw [hf] at h
      simp only [] at h
      by_cases he : mk.outcomes.isEmpty = true
      · rw [if_pos he] at h; simp at h
      · rw [if_neg he] at h
        simp only [Option.some.injEq] at h
        rw [← h]
        simpa [List.isEmpty_iff] using he

theorem foldl_oddsInsert_one_mono (hm am : Option String) :
    ∀ (os : List Outcome) (d : OddsDict), d.one.isSome = true →
      ((os.foldl (oddsInsert hm am) d).one).isSome = true := by
  intro os
  induction os with
  | nil => intro d h; exact h
  | cons o t ih =>
    intro d h
    rw [List.foldl_cons]
    refine ih _ ?_
    unfold oddsInsert
    by_cases h1 : some o.name = hm
    · rw [if_pos h1]; simp
    · rw [if_neg h1]
      by_cases h2 : some o.name = am
      · rw [if_pos h2]; simpa using h
      · rw [if_neg h2]; simpa using h

theorem foldl_oddsInsert_two_mono (hm am : Option String) :
    ∀ (os : List Outcome) (d : OddsDict), d.two.isSome = true →
      ((os.foldl (oddsInsert hm am) d).two).isSome = true := by
  intro os
  induction os with
  | nil => intro d h; exact h
  | cons o t ih =>
    intro d h
    rw [List.foldl_cons]
    refine ih _ ?_
    unfold oddsInsert
    by_cases h1 : some o.name = hm
    · rw [if_pos h1]; simpa using h
    · rw [if_neg h1]
      by_cases h2 : some o.name = am
      · rw [if_pos h2]; simp
      · rw [if_neg h2]; simpa using h

theorem foldl_oddsInsert_draw_mono (hm am : Option String) :
    ∀ (os : List Outcome) (d : OddsDict), d.draw.isSome = true →
      ((os.foldl (oddsInsert hm am) d).draw).isSome = true := by
  intro os
  induction os with
  | nil => intro d h; exact h
  | cons o t ih =>
    intro d h
    rw [List.foldl_cons]
    refine ih _ ?_
    unfold oddsInsert
    by_cases h1 : some o.name = hm
    · rw [if_pos h1]; simpa using h
    · rw [if_neg h1]
      by_cases h2 : some o.name = am
      · rw [if_pos h2]; simpa using h
      · rw [if_neg h2]; simp

theorem buildOdds_one_hit (hm am : Option String) :
    ∀ (os : List Outcome) (d : OddsDict),
      (∃ o ∈ os, some o.name = hm) →
      ((os.foldl (oddsInsert hm am) d).one).isSome = true := by
  intro os
  induction os with
  | nil => intro d h; simp at h
  | cons o2 t ih =>
    intro d h
    rw [List.foldl_cons]
    rcases h with ⟨o, ho, hname⟩
    rcases List.mem_cons.mp ho with rfl | hmem
    · refine foldl_oddsInsert_one_mono hm am t _ ?_
      unfold oddsInsert
      rw [if_pos hname]
      simp
    · exact ih _ ⟨o, hmem, hname⟩

theorem buildOdds_two_hit (hm am : Option String) :
    ∀ (os : List Outcome) (d : OddsDict),
      (∃ o ∈ os, some o.name = am ∧ some o.name ≠ hm) →
      ((os.foldl (oddsInsert hm am) d).two).isSome = true := by
  intro os
  induction os with
  | nil => intro d h; simp at h
  | cons o2 t ih =>
    intro d h
    rw [List.foldl_cons]
    rcases h with ⟨o, ho, hname, hne⟩
    rcases List.mem_cons.mp ho with rfl | hmem
    · refine foldl_oddsInsert_two_mono hm am t _ ?_
      unfold oddsInsert
      rw [if_neg hne, if_pos hname]
      simp
    · exact ih _ ⟨o, hmem, hname, hne⟩

theorem buildOdds_draw_hit (hm am : Option String) :
    ∀ (os : List Outcome) (d : OddsDict),
      (∃ o ∈ os, some o.name ≠ hm ∧ some o.name ≠ am) →
      ((os.foldl (oddsInsert hm am) d).draw).isSome = true := by
  intro os
  induction os with
  | nil => intro d h; simp at h
  | cons o2 t ih =>
    intro d h
    rw [List.foldl_cons]
    rcases h with ⟨o, ho, hne1, hne2⟩
    rcases List.mem_cons.mp ho with rfl | hmem
    · refine foldl_oddsInsert_draw_mono hm am t _ ?_
      unfold oddsInsert
      rw [if_neg hne1, if_neg hne2]
      simp
    · exact ih _ ⟨o, hmem, hne1, hne2⟩

/-- C1 (amended): for every raw odds record the derived `opening` and
`closing` mappings are the same; each is either wholly absent or non-empty
(never an empty mapping); and each is fully populated with all three outcome
codes whenever the selected h2h outcomes include one outcome printed exactly
as the record's home team, one printed as its away team, and one printed as
neither — with fewer matching outcomes the mapping can be partial. -/
theorem extract_odds_data_shape (om : OddsMatch) :
    (extract_odds_data om).closing = (extract_odds_data om).opening ∧
    ((extract_odds_data om).opening = none ∨
      ∃ d, (extract_odds_data om).opening = some d ∧ d.isEmptyDict = false) ∧
    (∀ os, selectH2h om = some os → om.home_team ≠ om.away_team →
      (∃ o ∈ os, some o.name = om.home_team) →
      (∃ o ∈ os, some o.name = om.away_team) →
      (∃ o ∈ os, some o.name ≠ om.home_team ∧ some o.name ≠ om.away_team) →
      ∃ d, (extract_odds_data om).opening = some d ∧ d.full = true) := by
  refine ⟨?_, ?_, ?_⟩
  · unfold extract_odds_data
    cases selectH2h om with
    | none => rfl
    | some os =>
      by_cases he : (buildOdds om.home_team om.away_team os).isEmptyDict = true <;>
        simp [he]
  · unfold extract_odds_data
    cases hs : selectH2h om with
    | none => exact Or.inl rfl
    | some os =>
      by_cases he : (buildOdds om.home_team om.away_team os).isEmptyDict = true
      · exact Or.inl (by simp [he])
      · refine Or.inr ⟨buildOdds om.home_team om.away_team os, by simp [he], ?_⟩
        simpa [Bool.not_eq_true] using he
  · intro os hs hne hhome haway hdraw
    have hone : ((buildOdds om.home_team om.away_team os).one).isSome = true :=
      buildOdds_one_hit om.home_team om.away_team os _ hhome
    have htwo : ((buildOdds om.home_team om.away_team os).two).isSome = true := by
      refine buildOdds_two_hit om.home_team om.away_team os _ ?_
      rcases haway with ⟨o, ho, hname⟩
      refine ⟨o, ho, hname, fun hc => hne ?_⟩
      rw [← hc, ← hname]
    have hdr : ((buildOdds om.home_team om.away_team os).draw).isSome = true :=
      buildOdds_draw_hit om.home_team om.away_team os _ hdraw
    have hfull : (buildOdds om.home_team om.away_team os).full = true := by
      simp [OddsDict.full, hone, htwo, hdr]
    have hnempty : (buildOdds om.home_team om.away_team os).isEmptyDict = false := by
      simp only [OddsDict.isEmptyDict]
      rcases Option.isSome_iff_exists.mp hone with ⟨v, hv⟩
      simp [hv]
    refine ⟨buildOdds om.home_team om.away_team os, ?_, hfull⟩
    unfold extract_odds_data
    rw [hs]
    simp [hnempty]

/-- C1 counterexample: a raw odds record whose h2h market prints only the home
side yields `odds_opening = {"1": price}` — a partial mapping, neither fully
populated nor wholly absent. -/
theorem extract_odds_data_partial_cex :
    (extract_odds_data cexPartialFrag).opening = some ⟨some 2, none, none⟩ ∧
    (OddsDict.full ⟨some 2, none, none⟩) = false ∧
    (OddsDict.isEmptyDict ⟨some 2, none, none⟩) = false := by
  exact ⟨rfl, rfl, rfl⟩

/-- C1 witness: the amended theorem applied to a record whose h2h outcomes
name the home side, the away side, and a draw label. -/
theorem extract_odds_data_shape_witness :
    selectH2h witFullFrag = some witFullOutcomes ∧
    witFullFrag.home_team ≠ witFullFrag.away_team ∧
    (∃ d, (extract_odds_data witFullFrag).opening = some d ∧ d.full = true) :=
  ⟨by decide, by decide,
    (extract_odds_data_shape witFullFrag).2.2 witFullOutcomes (by decide)
      (by decide) (by decide) (by decide) (by decide)⟩

theorem fragStep_foldl (ms : List MatchRec) (dstr : String) :
    ∀ (frags : List OddsMatch) (od : OddsTable),
      frags.foldl (fragStep ms dstr) od = (dateWrites ms dstr frags).reverse ++ od := by
  intro frags
  induction frags with
  | nil => intro od; simp [dateWrites]
  | cons f t ih =>
    intro od
    rw [List.foldl_cons]
    cases hft : fragmentTarget ms dstr f with
    | none =>
      rw [show fragStep ms dstr od f = od by unfold fragStep; rw [hft]]
      rw [ih od]
      unfold dateWrites
      rw [List.filterMap_cons, hft]
      rfl
    | some m =>
      rw [show fragStep ms dstr od f = (m.match_id, extract_odds_data f) :: od by
        unfold fragStep; rw [hft]]
      rw [ih ((m.match_id, extract_odds_data f) :: od)]
      unfold dateWrites
      rw [List.filterMap_cons, hft]
      simp only [Option.map_some']
      rw [List.reverse_cons, List.append_assoc, List.singleton_append]

theorem dateStep_foldl (ms : List MatchRec) (responses : String → List OddsMatch) :
    ∀ (dates : List String) (od : OddsTable),
      dates.foldl (dateStep ms responses) od =
        (allWrites ms responses dates).reverse ++ od := by
  intro dates
  induction dates with
  | nil => intro od; simp [allWrites]
  | cons d t ih =>
    intro od
    rw [List.foldl_cons]
    rw [show dateStep ms responses od d = (dateWrites ms d (responses d)).reverse ++ od
      from fragStep_foldl ms d (responses d) od]
    rw [ih]
    unfold allWrites
    rw [List.map_cons, List.flatten_cons, List.reverse_append, List.append_assoc]

theorem get_odds_eq_allWrites (wl : String → Bool)
    (responses : String → List OddsMatch) (ms : List MatchRec) :
    get_odds_for_matches wl responses ms =
      (allWrites ms responses (datesToProcess wl ms)).reverse := by
  unfold get_odds_for_matches
  rw [dateStep_foldl]
  rw [List.append_nil]

theorem dateWrites_mem {ms : List MatchRec} {dstr : String}
    {frags : List OddsMatch} {w : String × OddsRec}
    (hw : w ∈ dateWrites ms dstr frags) :
    ∃ om ∈ frags, ∃ m2, fragmentTarget ms dstr om = some m2 ∧
      w = (m2.match_id, extract_odds_data om) := by
  unfold dateWrites at hw
  rw [List.mem_filterMap] at hw
  obtain ⟨om, hom, hmap⟩ := hw
  cases hft : fragmentTarget ms dstr om with
  | none => rw [hft] at hmap; simp at hmap
  | some m2 =>
    rw [hft] at hmap
    simp only [Option.map_some', Option.some.injEq] at hmap
    exact ⟨om, hom, m2, hft, hmap.symm⟩

theorem allWrites_mem {ms : List MatchRec} {responses : String → List OddsMatch}
    {dates : List String} {w : String × OddsRec}
    (hw : w ∈ allWrites ms responses dates) :
    ∃ d ∈ dates, ∃ om ∈ responses d, ∃ m2,
      fragmentTarget ms d om = some m2 ∧
      w = (m2.match_id, extract_odds_data om) := by
  unfold allWrites at hw
  rw [List.mem_flatten] at hw
  obtain ⟨l, hl, hwl⟩ := hw
  rw [List.mem_map] at hl
  obtain ⟨d, hd, rfl⟩ := hl
  obtain ⟨om, hom, m2, hft, hw2⟩ := dateWrites_mem hwl
  exact ⟨d, hd, om, hom, m2, hft, hw2⟩

theorem joinPred_iff (dstr : String) (om : OddsMatch) (m2 : MatchRec) :
    joinPred dstr om m2 = true ↔
      m2.home_team = normalize_team_name (om.home_team.getD "") ∧
      m2.away_team = normalize_team_name (om.away_team.getD "") ∧
      m2.date = dstr := by
  unfold joinPred
  simp [Bool.and_eq_true, beq_iff_eq, and_assoc]

theorem write_key_triple {ms : List MatchRec} {m m2 : MatchRec} {d : String}
    {om : OddsMatch}
    (hid : ∀ m3 ∈ ms, m3.match_id = m.match_id →
      m3.date = m.date ∧ m3.home_team = m.home_team ∧ m3.away_team = m.away_team)
    (hft : fragmentTarget ms d om = some m2)
    (hkey : m2.match_id = m.match_id) :
    d = m.date ∧ tripleMatches om m := by
  have hmem : m2 ∈ ms := List.mem_of_find?_eq_some hft
  have hp := List.find?_some hft
  rw [joinPred_iff] at hp
  obtain ⟨hh, ha, hd⟩ := hp
  obtain ⟨hdd, hhh, haa⟩ := hid m2 hmem hkey
  refine ⟨?_, ?_, ?_⟩
  · rw [← hd]; exact hdd
  · show normalize_team_name (om.home_team.getD "") = m.home_team
    rw [← hh]; exact hhh
  · show normalize_team_name (om.away_team.getD "") = m.away_team
    rw [← ha]; exact haa

theorem fragmentTarget_of_matching {ms : List MatchRec} {m : MatchRec}
    {om : OddsMatch}
    (hm : m ∈ ms)
    (htri : ∀ m2 ∈ ms, m2.date = m.date → m2.home_team = m.home_team →
      m2.away_team = m.away_team → m2.match_id = m.match_id)
    (hom : tripleMatches om m) :
    ∃ m2, fragmentTarget ms m.date om = some m2 ∧ m2.match_id = m.match_id := by
  have hex : (ms.find? (joinPred m.date om)).isSome = true := by
    rw [List.find?_isSome]
    exact ⟨m, hm, (joinPred_iff _ _ _).mpr ⟨hom.1.symm, hom.2.symm, rfl⟩⟩
  obtain ⟨m2, hm2⟩ := Option.isSome_iff_exists.mp hex
  have hp := List.find?_some hm2
  have hmem := List.mem_of_find?_eq_some hm2
  rw [joinPred_iff] at hp
  obtain ⟨hh, ha, hd⟩ := hp
  refine ⟨m2, hm2, htri m2 hmem hd ?_ ?_⟩
  · rw [hh, hom.1]
  · rw [ha, hom.2]

theorem mem_datesToProcess {wl : String → Bool} {ms : List MatchRec}
    {m : MatchRec} (hm : m ∈ ms) (hwl : wl m.date = true) :
    m.date ∈ datesToProcess wl ms := by
  unfold datesToProcess
  rw [List.mem_insertionSort, List.mem_dedup, List.mem_filter]
  exact ⟨List.mem_map.mpr ⟨m, hm, rfl⟩, hwl⟩

theorem nodup_datesToProcess (wl : String → Bool) (ms : List MatchRec) :
    (datesToProcess wl ms).Nodup := by
  unfold datesToProcess
  exact ((List.perm_insertionSort _ _).nodup_iff).mpr (List.nodup_dedup _)

theorem allWrites_append (ms : List MatchRec)
    (responses : String → List OddsMatch) (dA dB : List String) :
    allWrites ms responses (dA ++ dB) =
      allWrites ms responses dA ++ allWrites ms responses dB := by
  unfold allWrites
  rw [List.map_append, List.flatten_append]

theorem lookup_get_odds_last (wl : String → Bool)
    (responses : String → List OddsMatch) (ms : List MatchRec)
    (m : MatchRec) (om : OddsMatch) (l1 l2 : List OddsMatch)
    (hm : m ∈ ms)
    (hid : ∀ m2 ∈ ms, m2.match_id = m.match_id →
      m2.date = m.date ∧ m2.home_team = m.home_team ∧ m2.away_team = m.away_team)
    (htri : ∀ m2 ∈ ms, m2.date = m.date → m2.home_team = m.home_team →
      m2.away_team = m.away_team → m2.match_id = m.match_id)
    (hwl : wl m.date = true)
    (hsplit : responses m.date = l1 ++ om :: l2)
    (hom : tripleMatches om m)
    (hl2 : ∀ om2 ∈ l2, tripleMatches om2 m →
      extract_odds_data om2 = extract_odds_data om) :
    (get_odds_for_matches wl responses ms).lookup m.match_id =
      some (extract_odds_data om) := by
  obtain ⟨m2t, hft, hkey⟩ := fragmentTarget_of_matching hm htri hom
  have hdm := mem_datesToProcess hm hwl
  obtain ⟨dA, dB, hdates⟩ := List.append_of_mem hdm
  have hnodup := nodup_datesToProcess wl ms
  rw [hdates, List.nodup_append, List.nodup_cons] at hnodup
  obtain ⟨hnA, ⟨hnotB, hnB⟩, hdisj⟩ := hnodup
  have hnotA : m.date ∉ dA := fun hA => hdisj hA (List.mem_cons_self _ _)
  rw [get_odds_eq_allWrites, hdates]
  have e2 : dateWrites ms m.date (responses m.date)
      = dateWrites ms m.date l1 ++
        ((m.match_id, extract_odds_data om) :: dateWrites ms m.date l2) := by
    rw [hsplit]
    unfold dateWrites
    rw [List.filterMap_append, List.filterMap_cons, hft]
    simp only [Option.map_some']
    rw [hkey]
  have e1 : allWrites ms responses (dA ++ m.date :: dB)
      = (allWrites ms responses dA ++ dateWrites ms m.date l1) ++
        ((m.match_id, extract_odds_data om) ::
          (dateWrites ms m.date l2 ++ allWrites ms responses dB)) := by
    rw [allWrites_append]
    have : allWrites ms responses (m.date :: dB)
        = dateWrites ms m.date (responses m.date) ++ allWrites ms responses dB := by
      unfold allWrites
      rw [List.map_cons, List.flatten_cons]
    rw [this, e2]
    simp [List.append_assoc, List.cons_append]
  rw [e1]
  apply lookup_sandwich
  intro w hw hk
  rcases List.mem_append.mp hw with hwl2 | hwB
  · obtain ⟨om2, hom2, m3, hft3, hw3⟩ := dateWrites_mem hwl2
    have hk3 : m3.match_id = m.match_id := by rw [hw3] at hk; exact hk
    obtain ⟨_, htrip⟩ := write_key_triple hid hft3 hk3
    have hmem2 : om2 ∈ l2 := hom2
    rw [hw3]
    exact hl2 om2 hmem2 htrip
  · obtain ⟨d, hd, om2, hom2, m3, hft3, hw3⟩ := allWrites_mem hwB
    have hk3 : m3.match_id = m.match_id := by rw [hw3] at hk; exact hk
    obtain ⟨hdm2, _⟩ := write_key_triple hid hft3 hk3
    exact absurd (hdm2 ▸ hd) hnotB

theorem extract_opening_none_iff (om : OddsMatch) :
    (extract_odds_data om).opening = none ↔ selectH2h om = none := by
  unfold extract_odds_data
  cases hs : selectH2h om with
  | none => simp
  | some os =>
    simp only []
    have hosne : os ≠ [] := selectH2h_outcomes_ne_nil om os hs
    have hne : (buildOdds om.home_team om.away_team os).isEmptyDict = false := by
      unfold buildOdds
      exact buildOdds_ne_empty om.home_team om.away_team os _ hosne
    rw [if_neg (by simp [hne])]
    simp

/-- C4 (amended): if a skeleton and an odds record share an identical
`(date, home, away)` triple after normalization, the skeleton's date passes
the odds source's historical window, the batch's ids and triples determine
each other, and that record is the only one on the date matching the triple,
then the merged record's odds are exactly the record's derived prices — and
the derived `opening` is null precisely when the record carries no h2h
outcomes (no bookmaker, no h2h market, or an empty outcome list), rather than
always non-null as stated. -/
theorem merge_unique_fragment_odds (wl : String → Bool)
    (responses : String → List OddsMatch) (ms : List MatchRec)
    (m : MatchRec) (om : OddsMatch)
    (hm : m ∈ ms)
    (hid : ∀ m2 ∈ ms, m2.match_id = m.match_id →
      m2.date = m.date ∧ m2.home_team = m.home_team ∧ m2.away_team = m.away_team)
    (htri : ∀ m2 ∈ ms, m2.date = m.date → m2.home_team = m.home_team →
      m2.away_team = m.away_team → m2.match_id = m.match_id)
    (hwl : wl m.date = true)
    (hmem : om ∈ responses m.date)
    (hom : tripleMatches om m)
    (huniq : ∀ om2 ∈ responses m.date, tripleMatches om2 m → om2 = om) :
    enrichOne (get_odds_for_matches wl responses ms) m =
      { m with odds_opening := (extract_odds_data om).opening,
               odds_closing := (extract_odds_data om).closing } ∧
    ((extract_odds_data om).opening = none ↔ selectH2h om = none) := by
  obtain ⟨l1, l2, hsplit⟩ := List.append_of_mem hmem
  have hl2 : ∀ om2 ∈ l2, tripleMatches om2 m →
      extract_odds_data om2 = extract_odds_data om := by
    intro om2 h2 htrip
    have hin : om2 ∈ responses m.date := by
      rw [hsplit]
      exact List.mem_append_right _ (List.mem_cons_of_mem _ h2)
    rw [huniq om2 hin htrip]
  have hlook := lookup_get_odds_last wl responses ms m om l1 l2
    hm hid htri hwl hsplit hom hl2
  constructor
  · unfold enrichOne
    rw [hlook]
  · exact extract_opening_none_iff om

/-- C5 (amended): when several odds records on the skeleton's date match its
`(date, home, away)` triple, the LAST matching record in response order wins:
the merged record's odds come from the last duplicate, not the first (each
matching record overwrites the previous dict entry for the skeleton's id). -/
theorem merge_last_fragment_wins (wl : String → Bool)
    (responses : String → List OddsMatch) (ms : List MatchRec)
    (m : MatchRec) (om1 om : OddsMatch) (l1 l2 : List OddsMatch)
    (hm : m ∈ ms)
    (hid : ∀ m2 ∈ ms, m2.match_id = m.match_id →
      m2.date = m.date ∧ m2.home_team = m.home_team ∧ m2.away_team = m.away_team)
    (htri : ∀ m2 ∈ ms, m2.date = m.date → m2.home_team = m.home_team →
      m2.away_team = m.away_team → m2.match_id = m.match_id)
    (hwl : wl m.date = true)
    (hsplit : responses m.date = l1 ++ om :: l2)
    (hom : tripleMatches om m)
    (hlast : ∀ om2 ∈ l2, ¬ tripleMatches om2 m)
    (_hdup1 : om1 ∈ l1) (_hdup2 : tripleMatches om1 m) :
    enrichOne (get_odds_for_matches wl responses ms) m =
      { m with odds_opening := (extract_odds_data om).opening,
               odds_closing := (extract_odds_data om).closing } := by
  have hl2 : ∀ om2 ∈ l2, tripleMatches om2 m →
      extract_odds_data om2 = extract_odds_data om :=
    fun om2 h2 ht => absurd ht (hlast om2 h2)
  have hlook := lookup_get_odds_last wl responses ms m om l1 l2
    hm hid htri hwl hsplit hom hl2
  unfold enrichOne
  rw [hlook]

/-- C6: a skeleton whose `(date, home, away)` triple no odds record of its
date matches (ids and triples determining each other across the batch) is
returned by the merge engine unchanged, with `odds_opening` still null, and
it does appear in the output; no error path exists. -/
theorem merge_unmatched_unchanged (wl : String → Bool)
    (responses : String → List OddsMatch) (ms : List MatchRec) (m : MatchRec)
    (hm : m ∈ ms)
    (hid : ∀ m2 ∈ ms, m2.match_id = m.match_id →
      m2.date = m.date ∧ m2.home_team = m.home_team ∧ m2.away_team = m.away_team)
    (hno : ∀ om ∈ responses m.date, ¬ tripleMatches om m)
    (hop : m.odds_opening = none) :
    enrichOne (get_odds_for_matches wl responses ms) m = m ∧
    (enrichOne (get_odds_for_matches wl responses ms) m).odds_opening = none ∧
    m ∈ enrich_matches_with_odds wl responses ms := by
  have hlook : (get_odds_for_matches wl responses ms).lookup m.match_id = none := by
    rw [get_odds_eq_allWrites]
    apply lookup_none_of_no_key
    intro w hw
    obtain ⟨d, hd, om, homm, m2, hft, rfl⟩ := allWrites_mem (List.mem_reverse.mp hw)
    intro hk
    obtain ⟨hdm, htrip⟩ := write_key_triple hid hft hk
    exact hno om (hdm ▸ homm) htrip
  have he : enrichOne (get_odds_for_matches wl responses ms) m = m := by
    unfold enrichOne
    rw [hlook]
  refine ⟨he, by rw [he]; exact hop, ?_⟩
  unfold enrich_matches_with_odds
  rw [List.mem_map]
  exact ⟨m, hm, he⟩

/-- C4 counterexample: `cexFrag4` joins `cexSkel4`'s triple exactly and its
date is within the window, yet the merged record's `odds_opening` is null,
because the record carries no bookmakers and so derives no prices — the
claimed unconditional non-nullness fails. -/
theorem merge_fragment_null_odds_cex :
    cexFrag4 ∈ cexResp4 cexSkel4.date ∧
    tripleMatches cexFrag4 cexSkel4 ∧
    alwaysWithin cexSkel4.date = true ∧
    enrich_matches_with_odds alwaysWithin cexResp4 [cexSkel4] = [cexSkel4] ∧
    cexSkel4.odds_opening = none := by
  decide

/-- C4 witness: the amended theorem applied to a skeleton with one uniquely
matching odds record carrying a full h2h market. -/
theorem merge_unique_fragment_odds_witness :
    tripleMatches witFrag4 witSkel4 ∧
    (enrichOne (get_odds_for_matches alwaysWithin witResp4 [witSkel4]) witSkel4 =
      { witSkel4 with odds_opening := (extract_odds_data witFrag4).opening,
                      odds_closing := (extract_odds_data witFrag4).closing } ∧
      ((extract_odds_data witFrag4).opening = none ↔ selectH2h witFrag4 = none)) :=
  ⟨by decide,
    merge_unique_fragment_odds alwaysWithin witResp4 [witSkel4] witSkel4 witFrag4
      (by decide) (by decide) (by decide) (by decide) (by decide) (by decide)
      (by decide)⟩

/-- C5 counterexample: two odds records match `cexSkel5`'s triple on its
date; the merged record carries the SECOND record's prices (5/6/7), not the
first duplicate's (2/3/4) — "first match wins" fails on the code. -/
theorem merge_first_fragment_loses_cex :
    cexFragA5 ∈ cexResp5 cexSkel5.date ∧ tripleMatches cexFragA5 cexSkel5 ∧
    cexFragB5 ∈ cexResp5 cexSkel5.date ∧ tripleMatches cexFragB5 cexSkel5 ∧
    (extract_odds_data cexFragA5).opening = some ⟨some 2, some 3, some 4⟩ ∧
    enrich_matches_with_odds alwaysWithin cexResp5 [cexSkel5] =
      [{ cexSkel5 with odds_opening := some ⟨some 5, some 6, some 7⟩,
                       odds_closing := some ⟨some 5, some 6, some 7⟩ }] ∧
    some (⟨some 5, some 6, some 7⟩ : OddsDict) ≠
      some (⟨some 2, some 3, some 4⟩ : OddsDict) := by
  decide

/-- C5 witness: the amended theorem applied to the duplicate-fragment
scenario: the last matching record (`cexFragB5`) supplies the merged odds. -/
theorem merge_last_fragment_wins_witness :
    tripleMatches cexFragA5 cexSkel5 ∧ tripleMatches cexFragB5 cexSkel5 ∧
    enrichOne (get_odds_for_matches alwaysWithin cexResp5 [cexSkel5]) cexSkel5 =
      { cexSkel5 with odds_opening := (extract_odds_data cexFragB5).opening,
                      odds_closing := (extract_odds_data cexFragB5).closing } :=
  ⟨by decide, by decide,
    merge_last_fragment_wins alwaysWithin cexResp5 [cexSkel5] cexSkel5
      cexFragA5 cexFragB5 [cexFragA5] []
      (by decide) (by decide) (by decide) (by decide) (by decide) (by decide)
      (by decide) (by decide) (by decide)⟩

/-- C6 witness: the theorem applied to a skeleton whose date's only odds
record names two other teams: the output record is the unchanged skeleton. -/
theorem merge_unmatched_unchanged_witness :
    (∀ om ∈ witResp6 witSkel6.date, ¬ tripleMatches om witSkel6) ∧
    (enrichOne (get_odds_for_matches alwaysWithin witResp6 [witSkel6]) witSkel6 =
        witSkel6 ∧
      (enrichOne (get_odds_for_matches alwaysWithin witResp6 [witSkel6])
        witSkel6).odds_opening = none ∧
      witSkel6 ∈ enrich_matches_with_odds alwaysWithin witResp6 [witSkel6]) :=
  ⟨by decide,
    merge_unmatched_unchanged alwaysWithin witResp6 [witSkel6] witSkel6
      (by decide) (by decide) (by decide) (by decide)⟩
